import Mathlib

/-!
Shallow embedding of `libs/langchain/langchain/chains/combine_documents/reduce.py`.

Python dictionaries are modelled as insertion-ordered association lists
(`List (String × _)`); Python values that can occur in `Document.metadata`
are modelled by `PyVal` together with Python's `str` as `pyStr`; Python
exceptions are modelled by the `Except`/`Option` monads; the `while` loops
of `ReduceDocumentsChain._collapse` / `_acollapse` and the self-referential
Runnable of `create_collapse_documents_chain` are modelled as fuelled
recursions that additionally thread the trace of groups handed to the
collapse capability, so that "which collapse invocations happened, in which
order" is an observable of the model.
-/

set_option autoImplicit false

namespace ReduceDocs

/-- A Python value that can appear in `Document.metadata`. -/
inductive PyVal where
  | s : String → PyVal
  | i : Int → PyVal
  | b : Bool → PyVal
  deriving DecidableEq, Repr

/-- Python's `str` on a metadata value (as used by `f", {v}"` and `str(v)`). -/
def pyStr : PyVal → String
  | .s v => v
  | .i n => toString n
  | .b true => "True"
  | .b false => "False"

/-- `langchain_core.documents.Document`: `page_content` plus a metadata dict. -/
structure Document where
  page_content : String
  metadata : List (String × PyVal)
  deriving DecidableEq, Repr

/-- Python exceptions raised by the embedded code. -/
inductive PyErr where
  | valueError : String → PyErr
  | typeError : PyErr
  | indexError : PyErr
  deriving DecidableEq, Repr

/-- The exact message of the `ValueError` in `split_list_of_docs`. -/
def docTooLargeMsg : String :=
  "A single document was longer than the context length, we cannot handle this."

/-- Python `k in d` on a dict. -/
def dictContains (d : List (String × String)) (k : String) : Bool :=
  d.any (fun kv => kv.1 == k)

/-- Python `d[k]` lookup (first, hence unique, binding of `k`). -/
def dictGet : List (String × String) → String → Option String
  | [], _ => none
  | kv :: rest, k => if kv.1 == k then some kv.2 else dictGet rest k

/-- Python `d[k] = v`: overwrite in place if present, else append at the end. -/
def dictSet : List (String × String) → String → String → List (String × String)
  | [], k, v => [(k, v)]
  | kv :: rest, k, v =>
    if kv.1 == k then (kv.1, v) :: rest else kv :: dictSet rest k v

/-- Python `d[k] += suffix` on a string-valued dict (key assumed present). -/
def dictAppendStr : List (String × String) → String → String → List (String × String)
  | [], _, _ => []
  | kv :: rest, k, suffix =>
    if kv.1 == k then (kv.1, kv.2 ++ suffix) :: rest else kv :: dictAppendStr rest k suffix

/-- One step of the metadata-merging inner loop of `_combine_metadata` /
`collapse_docs`: `if k in combined: combined[k] += f", {v}" else: combined[k] = str(v)`. -/
def mergeOne (acc : List (String × String)) (kv : String × PyVal) : List (String × String) :=
  if dictContains acc kv.1 then dictAppendStr acc kv.1 (", " ++ pyStr kv.2)
  else dictSet acc kv.1 (pyStr kv.2)

/-- The dict comprehension `{k: str(v) for k, v in docs[0].metadata.items()}`. -/
def strDict (m : List (String × PyVal)) : List (String × String) :=
  m.foldl (fun d kv => dictSet d kv.1 (pyStr kv.2)) []

/-- `_combine_metadata` (identical to the metadata loop inlined in
`collapse_docs` and `acollapse_docs`); `none` models the `IndexError`
raised by `docs[0]` on an empty list. -/
def combine_metadata (docs : List Document) : Option (List (String × String)) :=
  match docs with
  | [] => none
  | d0 :: rest =>
    some (rest.foldl (fun acc doc => doc.metadata.foldl mergeOne acc) (strDict d0.metadata))

/-- `collapse_docs`: combine the group's contents through the combine
capability and merge all metadatas. Every value of the merged dict is a
string, re-embedded into `PyVal` by `PyVal.s`. -/
def collapse_docs (docs : List Document) (combine_document_func : List Document → String) :
    Option Document :=
  match combine_metadata docs with
  | none => none
  | some md =>
    some ⟨combine_document_func docs, md.map (fun kv => (kv.1, PyVal.s kv.2))⟩

/-- `acollapse_docs`: textually identical to `collapse_docs` in the source
(the `await` is transparent in the model). -/
def acollapse_docs (docs : List Document) (combine_document_func : List Document → String) :
    Option Document :=
  match combine_metadata docs with
  | none => none
  | some md =>
    some ⟨combine_document_func docs, md.map (fun kv => (kv.1, PyVal.s kv.2))⟩

/-- The loop of `split_list_of_docs`. `acc` is `new_result_doc_list`, `sub`
is `_sub_result_docs`. A `length_func` returning `None` makes the Python
comparison `None > token_max` raise a `TypeError`. -/
def splitGo (length_func : List Document → Option Int) (token_max : Int) :
    List Document → List (List Document) → List Document →
      Except PyErr (List (List Document))
  | [], acc, sub => .ok (acc ++ [sub])
  | doc :: rest, acc, sub =>
    let sub2 := sub ++ [doc]
    match length_func sub2 with
    | none => .error .typeError
    | some n =>
      if n > token_max then
        if sub2.length = 1 then .error (.valueError docTooLargeMsg)
        else splitGo length_func token_max rest (acc ++ [sub2.dropLast])
          (sub2.drop (sub2.length - 1))
      else splitGo length_func token_max rest acc sub2

/-- `split_list_of_docs`. -/
def split_list_of_docs (docs : List Document) (length_func : List Document → Option Int)
    (token_max : Int) : Except PyErr (List (List Document)) :=
  splitGo length_func token_max docs [] []

/-- The trace of collapse invocations: the groups handed to the collapse
capability, in order. -/
abbrev Trace := List (List Document)

/-- The `for docs in new_result_doc_list: result_docs.append(collapse_docs(...))`
loop of `ReduceDocumentsChain._collapse`. -/
def collapseAll (cf : List Document → String) : List (List Document) → Option (List Document)
  | [] => some []
  | g :: gs =>
    match collapse_docs g cf with
    | none => none
    | some d =>
      match collapseAll cf gs with
      | none => none
      | some ds => some (d :: ds)

/-- Same loop in `_acollapse`, calling `acollapse_docs`. -/
def acollapseAll (cf : List Document → String) : List (List Document) → Option (List Document)
  | [] => some []
  | g :: gs =>
    match acollapse_docs g cf with
    | none => none
    | some d =>
      match acollapseAll cf gs with
      | none => none
      | some ds => some (d :: ds)

/-- The `while num_tokens is not None and num_tokens > _token_max` loop of
`ReduceDocumentsChain._collapse`, fuelled; `none` means fuel ran out (the
loop has not terminated yet). An error carries the trace at raise time, so
"no collapse capability was invoked before the raise" is expressible. -/
def collapseImp (length_func : List Document → Option Int) (cf : List Document → String)
    (token_max : Int) :
    Nat → List Document → Trace → Option (Except (PyErr × Trace) (List Document × Trace))
  | 0, _, _ => none
  | fuel + 1, docs, tr =>
    match length_func docs with
    | none => some (.ok (docs, tr))
    | some n =>
      if n > token_max then
        match split_list_of_docs docs length_func token_max with
        | .error e => some (.error (e, tr))
        | .ok groups =>
          match collapseAll cf groups with
          | none => some (.error (.indexError, tr))
          | some newDocs => collapseImp length_func cf token_max fuel newDocs (tr ++ groups)
      else some (.ok (docs, tr))

/-- The loop of `ReduceDocumentsChain._acollapse`: a textual copy of
`_collapse` with `await`ed calls. -/
def collapseAImp (length_func : List Document → Option Int) (cf : List Document → String)
    (token_max : Int) :
    Nat → List Document → Trace → Option (Except (PyErr × Trace) (List Document × Trace))
  | 0, _, _ => none
  | fuel + 1, docs, tr =>
    match length_func docs with
    | none => some (.ok (docs, tr))
    | some n =>
      if n > token_max then
        match split_list_of_docs docs length_func token_max with
        | .error e => some (.error (e, tr))
        | .ok groups =>
          match acollapseAll cf groups with
          | none => some (.error (.indexError, tr))
          | some newDocs => collapseAImp length_func cf token_max fuel newDocs (tr ++ groups)
      else some (.ok (docs, tr))

/-- The self-referential `collapse_loop` Runnable of
`create_collapse_documents_chain`: measure `_docs_len` (a total,
integer-valued length); if over `token_max`, run one `partition_docs` +
`reduce_docs.map()` round (partition with `split_list_of_docs`, turn each
partition into one `Document` whose `page_content` is the combine
capability's output and whose metadata is `_combine_metadata`, which is
exactly `collapse_docs`), then re-enter; else return the documents. -/
def collapse_loop (docs_len : List Document → Int) (cf : List Document → String)
    (token_max : Int) :
    Nat → List Document → Trace → Option (Except (PyErr × Trace) (List Document × Trace))
  | 0, _, _ => none
  | fuel + 1, docs, tr =>
    if docs_len docs > token_max then
      match split_list_of_docs docs (fun ds => some (docs_len ds)) token_max with
      | .error e => some (.error (e, tr))
      | .ok partitions =>
        match collapseAll cf partitions with
        | none => some (.error (.indexError, tr))
        | some newDocs => collapse_loop docs_len cf token_max fuel newDocs (tr ++ partitions)
    else some (.ok (docs, tr))

/-- Python truthiness of `token_max or self.token_max` for
`token_max : Optional[int]`: `None` and `0` are falsy. -/
def pyOr (token_max : Option Int) (dflt : Int) : Int :=
  match token_max with
  | none => dflt
  | some t => if t = 0 then dflt else t

/-- The configuration of `ReduceDocumentsChain` relevant to the model:
the `token_max` field with its declared default `3000`. -/
structure ReduceDocumentsChain where
  token_max : Int := 3000

/-- `ReduceDocumentsChain._collapse` including the
`_token_max = token_max or self.token_max` budget resolution. -/
def ReduceDocumentsChain.collapse (c : ReduceDocumentsChain)
    (length_func : List Document → Option Int) (cf : List Document → String)
    (token_max : Option Int) (fuel : Nat) (docs : List Document) (tr : Trace) :
    Option (Except (PyErr × Trace) (List Document × Trace)) :=
  collapseImp length_func cf (pyOr token_max c.token_max) fuel docs tr

/-- `ReduceDocumentsChain._acollapse` with the same budget resolution. -/
def ReduceDocumentsChain.acollapse (c : ReduceDocumentsChain)
    (length_func : List Document → Option Int) (cf : List Document → String)
    (token_max : Option Int) (fuel : Nat) (docs : List Document) (tr : Trace) :
    Option (Except (PyErr × Trace) (List Document × Trace)) :=
  collapseAImp length_func cf (pyOr token_max c.token_max) fuel docs tr

/-- `ReduceDocumentsChain.combine_docs`: `_collapse`, then hand the result
to `combine_documents_chain.combine_docs` (the abstract final combine
capability `finalFn`) exactly once. The second `Trace` of the result is
the list of final-combine invocations. -/
def ReduceDocumentsChain.combineDocs (c : ReduceDocumentsChain)
    (length_func : List Document → Option Int) (cf : List Document → String)
    (finalFn : List Document → String) (token_max : Option Int) (fuel : Nat)
    (docs : List Document) :
    Option (Except (PyErr × Trace) (String × Trace × Trace)) :=
  match c.collapse length_func cf token_max fuel docs [] with
  | none => none
  | some (.error e) => some (.error e)
  | some (.ok (resultDocs, tr)) => some (.ok (finalFn resultDocs, tr, [resultDocs]))

/-- Termination of the `_collapse` loop on a given input: some fuel makes
the fuelled model return. -/
def collapseImpTerminates (length_func : List Document → Option Int)
    (cf : List Document → String) (token_max : Int) (docs : List Document) : Prop :=
  ∃ fuel r, collapseImp length_func cf token_max fuel docs [] = some r

/-! Concrete instances used to exercise the model. -/

/-- A concrete length function: sum of the `page_content` character counts
(the default character-count length oracle over concatenation, with an
empty separator). -/
def exLen (ds : List Document) : Option Int :=
  some (ds.foldl (fun n d => n + (d.page_content.length : Int)) 0)

/-- A concrete collapse capability that concatenates the contents
(content-preserving on singleton groups). -/
def concatContents (ds : List Document) : String :=
  ds.foldl (fun s d => s ++ d.page_content) ""

/-- A concrete collapse capability that shrinks a group to the first
character of its concatenated contents. -/
def take1Contents (ds : List Document) : String :=
  (concatContents ds).take 1

/-- A 6-character document with empty metadata. -/
def docA : Document := ⟨"aaaaaa", []⟩

/-- Another 6-character document with empty metadata. -/
def docB : Document := ⟨"bbbbbb", []⟩

/-- A 1-character document. -/
def docSmall : Document := ⟨"x", []⟩

/-- A 12-character document: over a budget of 10 all by itself. -/
def docBig : Document := ⟨"xxxxxxxxxxxx", []⟩

/-! Helper lemmas about the partitioner. -/

theorem concat_dropLast (sub : List Document) (d : Document) :
    (sub ++ [d]).dropLast = sub := by
  simp

theorem concat_drop_lastIdx (sub : List Document) (d : Document) :
    (sub ++ [d]).drop ((sub ++ [d]).length - 1) = [d] := by
  have h : (sub ++ [d]).length - 1 = sub.length := by simp
  rw [h, List.drop_left]

theorem splitGo_flatten (lf : List Document → Option Int) (tm : Int) :
    ∀ (docs : List Document) (acc : List (List Document)) (sub : List Document)
      (gs : List (List Document)),
      splitGo lf tm docs acc sub = .ok gs → gs.flatten = acc.flatten ++ (sub ++ docs)
  | [], acc, sub, gs => by
    intro h
    simp only [splitGo] at h
    cases h
    simp
  | doc :: rest, acc, sub, gs => by
    intro h
    simp only [splitGo] at h
    split at h
    · cases h
    · split at h
      · split at h
        · cases h
        · have := splitGo_flatten lf tm rest (acc ++ [(sub ++ [doc]).dropLast])
            ((sub ++ [doc]).drop ((sub ++ [doc]).length - 1)) gs h
          rw [concat_dropLast, concat_drop_lastIdx] at this
          simpa using this
      · have := splitGo_flatten lf tm rest acc (sub ++ [doc]) gs h
        simpa using this

theorem splitGo_ne_nil (lf : List Document → Option Int) (tm : Int) :
    ∀ (docs : List Document) (acc : List (List Document)) (sub : List Document)
      (gs : List (List Document)),
      (∀ g ∈ acc, g ≠ []) → (sub ≠ [] ∨ docs ≠ []) →
      splitGo lf tm docs acc sub = .ok gs → ∀ g ∈ gs, g ≠ []
  | [], acc, sub, gs => by
    intro hacc hne h
    simp only [splitGo] at h
    cases h
    intro g hg
    rcases List.mem_append.1 hg with hg | hg
    · exact hacc g hg
    · rcases List.mem_singleton.1 hg with rfl
      rcases hne with hne | hne
      · exact hne
      · exact absurd rfl hne
  | doc :: rest, acc, sub, gs => by
    intro hacc hne h
    simp only [splitGo] at h
    split at h
    · cases h
    · split at h
      · split at h
        · cases h
        · rename_i hlen
          refine splitGo_ne_nil lf tm rest _ _ gs ?_ ?_ h
          · intro g hg
            rcases List.mem_append.1 hg with hg | hg
            · exact hacc g hg
            · rcases List.mem_singleton.1 hg with rfl
              rw [concat_dropLast]
              intro hsub
              subst hsub
              simp at hlen
          · left
            rw [concat_drop_lastIdx]
            simp
      · refine splitGo_ne_nil lf tm rest acc (sub ++ [doc]) gs hacc ?_ h
        left
        simp

theorem splitGo_last_group (lf : List Document → Option Int) (tm : Int) :
    ∀ (docs : List Document) (acc : List (List Document)) (sub : List Document)
      (gs : List (List Document)),
      splitGo lf tm docs acc sub = .ok gs → ∃ front last, gs = front ++ [last]
  | [], acc, sub, gs => by
    intro h
    simp only [splitGo] at h
    cases h
    exact ⟨acc, sub, rfl⟩
  | doc :: rest, acc, sub, gs => by
    intro h
    simp only [splitGo] at h
    split at h
    · cases h
    · split at h
      · split at h
        · cases h
        · exact splitGo_last_group lf tm rest _ _ gs h
      · exact splitGo_last_group lf tm rest _ _ gs h

/-- For a list of nonempty lists, the count of lists is at most the sum of
their lengths, with equality exactly when every list is a singleton. -/
theorem length_le_sum_lengths {α : Type} :
    ∀ (gs : List (List α)), (∀ g ∈ gs, g ≠ []) →
      gs.length ≤ (gs.map List.length).sum ∧
        (gs.length = (gs.map List.length).sum ↔ ∀ g ∈ gs, g.length = 1)
  | [], _ => by simp
  | g :: gs, h => by
    have hg : g ≠ [] := h g (by simp)
    have hg1 : 1 ≤ g.length := by
      cases g with
      | nil => exact absurd rfl hg
      | cons a l => simp
    obtain ⟨ih1, ih2⟩ := length_le_sum_lengths gs (fun g' hg' => h g' (by simp [hg']))
    constructor
    · have := Nat.add_le_add hg1 ih1
      simp only [List.map_cons, List.sum_cons, List.length_cons]
      omega
    · simp only [List.map_cons, List.sum_cons, List.length_cons, List.mem_cons]
      constructor
      · intro heq g' hg'
        have hgl : g.length = 1 ∧ gs.length = (gs.map List.length).sum := by
          omega
        rcases hg' with rfl | hg'
        · exact hgl.1
        · exact (ih2.1 hgl.2) g' hg'
      · intro hall
        have h1 : g.length = 1 := hall g (Or.inl rfl)
        have h2 : gs.length = (gs.map List.length).sum :=
          ih2.2 (fun g' hg' => hall g' (Or.inr hg'))
        omega

/-- C1: for every input list and budget on which `split_list_of_docs`
returns, concatenating the returned groups in order reproduces the input
list exactly: groups are contiguous, order-preserving, non-overlapping,
and no document is lost, reordered or duplicated. -/
theorem split_list_of_docs_coverage (docs : List Document)
    (lf : List Document → Option Int) (tm : Int) (gs : List (List Document))
    (h : split_list_of_docs docs lf tm = .ok gs) : gs.flatten = docs := by
  have := splitGo_flatten lf tm docs [] [] gs h
  simpa using this

/-- C1 witness: concrete run of the partitioner, coverage evaluated. -/
theorem split_list_of_docs_coverage_witness :
    split_list_of_docs [docA, docB] exLen 10 = .ok [[docA], [docB]] ∧
      ([[docA], [docB]] : List (List Document)).flatten = [docA, docB] :=
  ⟨rfl, split_list_of_docs_coverage [docA, docB] exLen 10 [[docA], [docB]] rfl⟩

/-- C2 (code bug, evaluation at the failing input): with the
character-count length and budget 10, the 12-character second document is
over budget all by itself, yet `split_list_of_docs` returns it as a
silently emitted singleton group instead of raising — contradicting both
the claim and the function's own docstring ("subsets that each meet a
cumulative length constraint"). -/
theorem split_silently_emits_overbudget_singleton :
    split_list_of_docs [docSmall, docBig] exLen 10 = .ok [[docSmall], [docBig]] ∧
      exLen [docBig] = some 12 ∧ ¬ (12 : Int) ≤ 10 :=
  ⟨rfl, rfl, by decide⟩

/-- C8: the final accumulating group is always emitted as the last
partition, even when it is empty: on the empty input the partitioner
returns exactly one empty group, and on every successful run the returned
partition list is nonempty. -/
theorem split_emits_final_group :
    (∀ (lf : List Document → Option Int) (tm : Int),
      split_list_of_docs [] lf tm = .ok [[]]) ∧
    (∀ (docs : List Document) (lf : List Document → Option Int) (tm : Int)
      (gs : List (List Document)), split_list_of_docs docs lf tm = .ok gs → gs ≠ []) := by
  constructor
  · intro lf tm
    rfl
  · intro docs lf tm gs h
    obtain ⟨front, last, rfl⟩ := splitGo_last_group lf tm docs [] [] gs h
    simp

/-- C8 witness: the empty-input run and a concrete successful run. -/
theorem split_emits_final_group_witness :
    split_list_of_docs [] exLen 10 = .ok [[]] ∧
      ([[docA], [docB]] : List (List Document)) ≠ [] :=
  ⟨split_emits_final_group.1 exLen 10,
    split_emits_final_group.2 [docA, docB] exLen 10 [[docA], [docB]] rfl⟩

/-- C3 amended: on a nonempty input, each successful partition round
yields at most as many groups (hence, after collapsing, documents) as it
was given, with equality exactly when every group is a singleton; the
strict-decrease part of the claim holds, but the loop still need not
terminate (see the counterexample): an all-singleton partition does not
make the partitioner raise, and a content-preserving collapse capability
then leaves the working list fixed forever. -/
theorem split_round_length (docs : List Document) (lf : List Document → Option Int)
    (tm : Int) (gs : List (List Document)) (hne : docs ≠ [])
    (h : split_list_of_docs docs lf tm = .ok gs) :
    gs.length ≤ docs.length ∧ (gs.length = docs.length ↔ ∀ g ∈ gs, g.length = 1) := by
  have hflat : gs.flatten = docs := by
    have := splitGo_flatten lf tm docs [] [] gs h
    simpa using this
  have hsum : (gs.map List.length).sum = docs.length := by
    rw [← hflat, List.length_flatten]
  have hnn : ∀ g ∈ gs, g ≠ [] :=
    splitGo_ne_nil lf tm docs [] [] gs (by simp) (Or.inr hne) h
  obtain ⟨h1, h2⟩ := length_le_sum_lengths gs hnn
  rw [hsum] at h1 h2
  exact ⟨h1, h2⟩

/-- C3 amended witness: a concrete round where both groups are singletons
and the group count equals the document count. -/
theorem split_round_length_witness :
    ([[docA], [docB]] : List (List Document)).length ≤ ([docA, docB] : List Document).length ∧
      (([[docA], [docB]] : List (List Document)).length = ([docA, docB] : List Document).length ↔
        ∀ g ∈ ([[docA], [docB]] : List (List Document)), g.length = 1) :=
  split_round_length [docA, docB] exLen 10 [[docA], [docB]] (by simp) rfl

theorem collapseImp_fixed_step (fuel : Nat) (tr : Trace) :
    collapseImp exLen concatContents 10 (fuel + 1) [docA, docB] tr =
      collapseImp exLen concatContents 10 fuel [docA, docB] (tr ++ [[docA], [docB]]) := rfl

theorem collapseImp_fixed_none :
    ∀ (fuel : Nat) (tr : Trace),
      collapseImp exLen concatContents 10 fuel [docA, docB] tr = none
  | 0, _ => rfl
  | fuel + 1, tr => by
    rw [collapseImp_fixed_step]
    exact collapseImp_fixed_none fuel (tr ++ [[docA], [docB]])

/-- C3 counterexample: two 6-character documents under budget 10, so no
single document's cost exceeds `token_max`, with the content-preserving
collapse capability (concatenation): every round repartitions them into the
same two singleton groups and collapses each back to itself, so the
`_collapse` loop never terminates — refuting the claim that the driver
terminates for every choice of collapse capability. -/
theorem collapse_loop_can_spin_forever :
    exLen [docA] = some 6 ∧ exLen [docB] = some 6 ∧ ¬ (10 : Int) < 6 ∧
      ¬ collapseImpTerminates exLen concatContents 10 [docA, docB] := by
  refine ⟨rfl, rfl, by decide, ?_⟩
  rintro ⟨fuel, r, h⟩
  rw [collapseImp_fixed_none fuel []] at h
  cases h

/-- C4 counterexample: the 12-character second document alone exceeds the
budget of 10, yet the reduction raises nothing: the oversized document is
silently emitted as a singleton group and handed to the collapse
capability (it appears in the invocation trace), and the run completes
normally — refuting "when a single document's cost alone exceeds the
budget, the reduction raises before any combine capability is invoked". -/
theorem oversized_second_doc_no_raise :
    exLen [docBig] = some 12 ∧ ¬ (12 : Int) ≤ 10 ∧
      collapseImp exLen take1Contents 10 3 [docSmall, docBig] [] =
        some (.ok ([docSmall, docSmall], [[docSmall], [docBig]])) :=
  ⟨rfl, by decide, rfl⟩

/-- C4 amended: only when the first document's cost alone exceeds the
active budget (and the loop is entered) does the reduction raise; the
raise then happens before any collapse invocation (the trace is unchanged)
and the error is a `ValueError` with the fixed message `docTooLargeMsg`,
which carries no document-specific context; an oversized document in a
later position triggers no error and is silently passed to the collapse
capability. -/
theorem collapse_raises_only_first_doc (lf : List Document → Option Int)
    (cf : List Document → String) (tm : Int) (fuel : Nat) (d : Document)
    (rest : List Document) (tr : Trace) (t n : Int)
    (ht : lf (d :: rest) = some t) (h1 : tm < t) (h2 : lf [d] = some n) (h3 : tm < n) :
    collapseImp lf cf tm (fuel + 1) (d :: rest) tr =
      some (.error (.valueError docTooLargeMsg, tr)) := by
  have hsplit : split_list_of_docs (d :: rest) lf tm = .error (.valueError docTooLargeMsg) := by
    simp only [split_list_of_docs, splitGo, List.nil_append, h2]
    rw [if_pos h3]
    simp
  simp only [collapseImp, ht]
  rw [if_pos h1, hsplit]

/-- C4 amended witness: a lone over-budget first document makes the loop
raise immediately, with the collapse-invocation trace still empty. -/
theorem collapse_raises_only_first_doc_witness :
    collapseImp exLen concatContents 10 1 [docBig] [] =
      some (.error (.valueError docTooLargeMsg, [])) :=
  collapse_raises_only_first_doc exLen concatContents 10 0 docBig [] [] 12 12 rfl
    (by decide) rfl (by decide)

theorem acollapse_docs_eq (docs : List Document) (cf : List Document → String) :
    acollapse_docs docs cf = collapse_docs docs cf := rfl

theorem acollapseAll_eq (cf : List Document → String) :
    ∀ gs : List (List Document), acollapseAll cf gs = collapseAll cf gs
  | [] => rfl
  | g :: gs => by
    simp only [acollapseAll, collapseAll, acollapse_docs_eq, acollapseAll_eq cf gs]

theorem collapseAImp_eq (lf : List Document → Option Int) (cf : List Document → String)
    (tm : Int) :
    ∀ (fuel : Nat) (docs : List Document) (tr : Trace),
      collapseAImp lf cf tm fuel docs tr = collapseImp lf cf tm fuel docs tr
  | 0, _, _ => rfl
  | fuel + 1, docs, tr => by
    simp only [collapseAImp, collapseImp, acollapseAll_eq, collapseAImp_eq lf cf tm fuel]

theorem collapse_loop_eq (docs_len : List Document → Int) (cf : List Document → String)
    (tm : Int) :
    ∀ (fuel : Nat) (docs : List Document) (tr : Trace),
      collapse_loop docs_len cf tm fuel docs tr =
        collapseImp (fun ds => some (docs_len ds)) cf tm fuel docs tr
  | 0, _, _ => rfl
  | fuel + 1, docs, tr => by
    simp only [collapse_loop, collapseImp, collapse_loop_eq docs_len cf tm fuel]

/-- C6: given the same length oracle, collapse capability and budget, the
declarative `collapse_loop` of `create_collapse_documents_chain`, the
imperative `ReduceDocumentsChain._collapse` loop and the asynchronous
`_acollapse` loop are the same function of the working state: same final
document list and the same sequence of collapse invocations with the same
groupings in the same order (the threaded trace), for every fuel. -/
theorem decl_imp_async_equivalent :
    (∀ (docs_len : List Document → Int) (cf : List Document → String) (tm : Int)
      (fuel : Nat) (docs : List Document) (tr : Trace),
      collapse_loop docs_len cf tm fuel docs tr =
        collapseImp (fun ds => some (docs_len ds)) cf tm fuel docs tr) ∧
    (∀ (lf : List Document → Option Int) (cf : List Document → String) (tm : Int)
      (fuel : Nat) (docs : List Document) (tr : Trace),
      collapseAImp lf cf tm fuel docs tr = collapseImp lf cf tm fuel docs tr) :=
  ⟨fun docs_len cf tm fuel docs tr => collapse_loop_eq docs_len cf tm fuel docs tr,
    fun lf cf tm fuel docs tr => collapseAImp_eq lf cf tm fuel docs tr⟩

/-- C7: when the documents' total cost is already at most the active
budget, the loop body of `_collapse` never executes: no collapse
invocation happens (empty trace), the documents reach the final combine
capability unchanged, and the final combine capability is invoked exactly
once, on exactly that list. -/
theorem combine_docs_within_budget (c : ReduceDocumentsChain)
    (lf : List Document → Option Int) (cf finalFn : List Document → String)
    (tm : Option Int) (fuel : Nat) (docs : List Document) (n : Int)
    (h : lf docs = some n) (hle : n ≤ pyOr tm c.token_max) :
    c.combineDocs lf cf finalFn tm (fuel + 1) docs =
      some (.ok (finalFn docs, [], [docs])) := by
  have hcol : c.collapse lf cf tm (fuel + 1) docs [] = some (.ok (docs, [])) := by
    simp only [ReduceDocumentsChain.collapse, collapseImp, h]
    rw [if_neg (not_lt.2 hle)]
  simp only [ReduceDocumentsChain.combineDocs, hcol]

/-- C7 witness: three small documents well under the default budget go to
the final combine unchanged, with zero collapse rounds. -/
theorem combine_docs_within_budget_witness :
    ReduceDocumentsChain.combineDocs {} exLen concatContents concatContents none 1
        [docSmall, docA, docB] =
      some (.ok (concatContents [docSmall, docA, docB], [], [[docSmall, docA, docB]])) :=
  combine_docs_within_budget {} exLen concatContents concatContents none 0
    [docSmall, docA, docB] 13 rfl (by decide)

/-- C9: `token_max=0` (or `None`) passed to `_collapse` / `_acollapse`
resolves, through the Python-truthiness `token_max or self.token_max`, to
the instance default `self.token_max`, whose declared default is 3000; the
loops then run with the instance budget, not 0. -/
theorem token_max_falsy_resolution :
    ({} : ReduceDocumentsChain).token_max = 3000 ∧
    (∀ c : ReduceDocumentsChain,
      pyOr (some 0) c.token_max = c.token_max ∧ pyOr none c.token_max = c.token_max) ∧
    (∀ (c : ReduceDocumentsChain) (lf : List Document → Option Int)
      (cf : List Document → String) (fuel : Nat) (docs : List Document) (tr : Trace),
      c.collapse lf cf (some 0) fuel docs tr = collapseImp lf cf c.token_max fuel docs tr ∧
      c.acollapse lf cf (some 0) fuel docs tr = collapseAImp lf cf c.token_max fuel docs tr ∧
      c.collapse lf cf none fuel docs tr = collapseImp lf cf c.token_max fuel docs tr ∧
      c.acollapse lf cf none fuel docs tr = collapseAImp lf cf c.token_max fuel docs tr) := by
  refine ⟨rfl, fun c => ⟨by simp [pyOr], rfl⟩,
    fun c lf cf fuel docs tr => ⟨?_, ?_, ?_, ?_⟩⟩ <;>
    simp [ReduceDocumentsChain.collapse, ReduceDocumentsChain.acollapse, pyOr]

/-- C10: when the length function returns `None` on the working document
list, `_collapse` and `_acollapse` perform zero collapse rounds and return
the documents unchanged (the trace does not grow), regardless of their
actual size. -/
theorem collapse_none_passthrough (lf : List Document → Option Int)
    (cf : List Document → String) (tm : Int) (fuel : Nat) (docs : List Document)
    (tr : Trace) (h : lf docs = none) :
    collapseImp lf cf tm (fuel + 1) docs tr = some (.ok (docs, tr)) ∧
      collapseAImp lf cf tm (fuel + 1) docs tr = some (.ok (docs, tr)) := by
  constructor <;> simp only [collapseImp, collapseAImp, h]

/-- C10 witness: a `None`-returning length function passes an oversized
document straight through both loops. -/
theorem collapse_none_passthrough_witness :
    collapseImp (fun _ => none) concatContents 10 1 [docBig] [] =
        some (.ok ([docBig], [])) ∧
      collapseAImp (fun _ => none) concatContents 10 1 [docBig] [] =
        some (.ok ([docBig], [])) :=
  collapse_none_passthrough (fun _ => none) concatContents 10 0 [docBig] [] rfl

/-! Helper lemmas about the dict model and the metadata merge. -/

theorem dictContains_eq_isSome : ∀ (d : List (String × String)) (k : String),
    dictContains d k = (dictGet d k).isSome
  | [], _ => rfl
  | kv :: rest, k => by
    simp only [dictContains, List.any_cons, dictGet]
    by_cases h : kv.1 == k
    · simp [h]
    · simp only [h, Bool.false_or, if_neg (by simpa using h)]
      exact dictContains_eq_isSome rest k

theorem dictGet_dictSet_self : ∀ (d : List (String × String)) (k v : String),
    dictGet (dictSet d k v) k = some v
  | [], k, v => by simp [dictSet, dictGet]
  | kv :: rest, k, v => by
    by_cases h : kv.1 == k
    · simp [dictSet, dictGet, h]
    · simp only [dictSet, if_neg h, dictGet, if_neg h]
      exact dictGet_dictSet_self rest k v

theorem dictGet_dictAppendStr_self : ∀ (d : List (String × String)) (k suffix old : String),
    dictGet d k = some old → dictGet (dictAppendStr d k suffix) k = some (old ++ suffix)
  | [], _, _, _ => by intro h; cases h
  | kv :: rest, k, suffix, old => by
    intro h
    by_cases hk : kv.1 == k
    · simp only [dictGet, if_pos hk] at h
      cases h
      simp [dictAppendStr, dictGet, hk]
    · simp only [dictGet, if_neg hk] at h
      simp only [dictAppendStr, if_neg hk, dictGet]
      exact dictGet_dictAppendStr_self rest k suffix old h

theorem dictContains_append (d e : List (String × String)) (k : String) :
    dictContains (d ++ e) k = (dictContains d k || dictContains e k) := by
  simp [dictContains, List.any_append]

theorem dictContains_dictSet_self : ∀ (d : List (String × String)) (k v : String),
    dictContains (dictSet d k v) k = true
  | [], k, v => by simp [dictSet, dictContains]
  | kv :: rest, k, v => by
    by_cases h : kv.1 == k
    · simp [dictSet, dictContains, h]
    · simp only [dictSet, if_neg h, dictContains, List.any_cons, Bool.or_eq_true]
      right
      exact dictContains_dictSet_self rest k v

theorem dictContains_dictSet_mono : ∀ (d : List (String × String)) (k v k' : String),
    dictContains d k' = true → dictContains (dictSet d k v) k' = true
  | [], k, v, k' => by intro h; cases h
  | kv :: rest, k, v, k' => by
    intro h
    simp only [dictContains, List.any_cons, Bool.or_eq_true] at h
    by_cases hk : kv.1 == k
    · simp only [dictSet, if_pos hk, dictContains, List.any_cons, Bool.or_eq_true]
      exact h
    · simp only [dictSet, if_neg hk, dictContains, List.any_cons, Bool.or_eq_true]
      rcases h with h | h
      · exact Or.inl h
      · exact Or.inr (dictContains_dictSet_mono rest k v k' h)

theorem dictContains_dictAppendStr : ∀ (d : List (String × String)) (k s k' : String),
    dictContains (dictAppendStr d k s) k' = dictContains d k'
  | [], _, _, _ => rfl
  | kv :: rest, k, s, k' => by
    by_cases hk : kv.1 == k
    · simp [dictAppendStr, dictContains, hk]
    · simp only [dictAppendStr, if_neg hk, dictContains, List.any_cons]
      rw [show (rest.any fun x => x.1 == k') = dictContains rest k' from rfl,
        ← dictContains_dictAppendStr rest k s k']
      rfl

theorem dictContains_mergeOne_self (acc : List (String × String)) (kv : String × PyVal) :
    dictContains (mergeOne acc kv) kv.1 = true := by
  by_cases h : dictContains acc kv.1
  · simp [mergeOne, h, dictContains_dictAppendStr]
  · simp only [mergeOne, h, Bool.false_eq_true, if_false]
    exact dictContains_dictSet_self acc kv.1 (pyStr kv.2)

theorem dictContains_mergeOne_mono (acc : List (String × String)) (kv : String × PyVal)
    (k' : String) (h : dictContains acc k' = true) :
    dictContains (mergeOne acc kv) k' = true := by
  by_cases hc : dictContains acc kv.1
  · simpa [mergeOne, hc, dictContains_dictAppendStr] using h
  · simp only [mergeOne, hc, Bool.false_eq_true, if_false]
    exact dictContains_dictSet_mono acc kv.1 (pyStr kv.2) k' h

theorem dictContains_inner_mono : ∀ (meta : List (String × PyVal))
    (acc : List (String × String)) (k' : String), dictContains acc k' = true →
    dictContains (meta.foldl mergeOne acc) k' = true
  | [], _, _ => fun h => h
  | kv :: rest, acc, k' => by
    intro h
    simp only [List.foldl_cons]
    exact dictContains_inner_mono rest (mergeOne acc kv) k'
      (dictContains_mergeOne_mono acc kv k' h)

theorem dictContains_inner_self : ∀ (meta : List (String × PyVal))
    (acc : List (String × String)) (k' : String), k' ∈ meta.map Prod.fst →
    dictContains (meta.foldl mergeOne acc) k' = true
  | [], _, _ => by intro h; cases h
  | kv :: rest, acc, k' => by
    intro h
    simp only [List.map_cons, List.mem_cons] at h
    simp only [List.foldl_cons]
    rcases h with rfl | h
    · exact dictContains_inner_mono rest (mergeOne acc kv) kv.1
        (dictContains_mergeOne_self acc kv)
    · exact dictContains_inner_self rest (mergeOne acc kv) k' h

theorem dictContains_outer_mono : ∀ (docs : List Document)
    (acc : List (String × String)) (k' : String), dictContains acc k' = true →
    dictContains (docs.foldl (fun acc doc => doc.metadata.foldl mergeOne acc) acc) k' = true
  | [], _, _ => fun h => h
  | doc :: rest, acc, k' => by
    intro h
    simp only [List.foldl_cons]
    exact dictContains_outer_mono rest _ k' (dictContains_inner_mono doc.metadata acc k' h)

theorem dictContains_outer_self : ∀ (docs : List Document)
    (acc : List (String × String)) (d : Document) (k : String), d ∈ docs →
    k ∈ d.metadata.map Prod.fst →
    dictContains (docs.foldl (fun acc doc => doc.metadata.foldl mergeOne acc) acc) k = true
  | [], _, _, _ => by intro h; cases h
  | doc :: rest, acc, d, k => by
    intro hd hk
    simp only [List.mem_cons] at hd
    simp only [List.foldl_cons]
    rcases hd with rfl | hd
    · exact dictContains_outer_mono rest _ k (dictContains_inner_self d.metadata acc k hk)
    · exact dictContains_outer_self rest _ d k hd hk

theorem dictContains_foldl_dictSet_mono : ∀ (m : List (String × PyVal))
    (acc : List (String × String)) (k' : String), dictContains acc k' = true →
    dictContains (m.foldl (fun d kv => dictSet d kv.1 (pyStr kv.2)) acc) k' = true
  | [], _, _ => fun h => h
  | kv :: rest, acc, k' => by
    intro h
    simp only [List.foldl_cons]
    exact dictContains_foldl_dictSet_mono rest _ k'
      (dictContains_dictSet_mono acc kv.1 (pyStr kv.2) k' h)

theorem dictContains_foldl_dictSet_self : ∀ (m : List (String × PyVal))
    (acc : List (String × String)) (k' : String), k' ∈ m.map Prod.fst →
    dictContains (m.foldl (fun d kv => dictSet d kv.1 (pyStr kv.2)) acc) k' = true
  | [], _, _ => by intro h; cases h
  | kv :: rest, acc, k' => by
    intro h
    simp only [List.map_cons, List.mem_cons] at h
    simp only [List.foldl_cons]
    rcases h with rfl | h
    · exact dictContains_foldl_dictSet_mono rest _ kv.1
        (dictContains_dictSet_self acc kv.1 (pyStr kv.2))
    · exact dictContains_foldl_dictSet_self rest _ k' h

theorem dictContains_strDict (m : List (String × PyVal)) (k : String)
    (h : k ∈ m.map Prod.fst) : dictContains (strDict m) k = true :=
  dictContains_foldl_dictSet_self m [] k h

theorem dictSet_append_absent : ∀ (d : List (String × String)) (k v : String),
    dictContains d k = false → dictSet d k v = d ++ [(k, v)]
  | [], _, _ => by intro; rfl
  | kv :: rest, k, v => by
    intro h
    simp only [dictContains, List.any_cons, Bool.or_eq_false_iff] at h
    have hne : ¬ (kv.1 == k) = true := by simp [h.1]
    simp only [dictSet, if_neg hne, List.cons_append]
    rw [dictSet_append_absent rest k v h.2]

theorem foldl_dictSet_nodup : ∀ (m : List (String × PyVal)) (d : List (String × String)),
    (∀ kv ∈ m, dictContains d kv.1 = false) → (m.map Prod.fst).Nodup →
    m.foldl (fun d kv => dictSet d kv.1 (pyStr kv.2)) d =
      d ++ m.map (fun kv => (kv.1, pyStr kv.2))
  | [], d => by simp
  | kv :: rest, d => by
    intro hdisj hnd
    simp only [List.map_cons, List.nodup_cons, List.mem_map] at hnd
    simp only [List.foldl_cons]
    rw [dictSet_append_absent d kv.1 (pyStr kv.2) (hdisj kv (by simp))]
    rw [foldl_dictSet_nodup rest (d ++ [(kv.1, pyStr kv.2)]) ?_ hnd.2]
    · simp
    · intro kv' hkv'
      rw [dictContains_append]
      have h1 : dictContains d kv'.1 = false := hdisj kv' (by simp [hkv'])
      have h2 : dictContains [(kv.1, pyStr kv.2)] kv'.1 = false := by
        have hne : ¬ kv.1 = kv'.1 := by
          intro hEq
          exact hnd.1 ⟨kv', hkv', hEq.symm⟩
        simp [dictContains, hne]
      rw [h1, h2]
      rfl

theorem combine_metadata_singleton (d : Document)
    (hnd : (d.metadata.map Prod.fst).Nodup) :
    combine_metadata [d] = some (d.metadata.map (fun kv => (kv.1, pyStr kv.2))) := by
  simp only [combine_metadata, List.foldl_nil, strDict]
  rw [foldl_dictSet_nodup d.metadata [] (fun kv _ => rfl) hnd]
  simp

/-- C5: the collapser's metadata merge starts from the first document's
metadata with all values stringified (a singleton group passes its
metadata through, stringified); for each further key, when the key is
already present the merge appends `", " ++ str value` to the existing
string and never overwrites it, otherwise it inserts `str value`; and no
key of any document in the group is ever dropped. `collapse_docs` builds
its output document from exactly this merge. -/
theorem metadata_merge_rule :
    (∀ (docs : List Document) (cf : List Document → String),
      collapse_docs docs cf = (combine_metadata docs).map
        (fun md => ⟨cf docs, md.map (fun kv => (kv.1, PyVal.s kv.2))⟩)) ∧
    (∀ d : Document, (d.metadata.map Prod.fst).Nodup →
      combine_metadata [d] = some (d.metadata.map (fun kv => (kv.1, pyStr kv.2)))) ∧
    (∀ (acc : List (String × String)) (k : String) (v : PyVal) (old : String),
      dictGet acc k = some old →
      dictGet (mergeOne acc (k, v)) k = some (old ++ ", " ++ pyStr v)) ∧
    (∀ (acc : List (String × String)) (k : String) (v : PyVal),
      dictGet acc k = none → dictGet (mergeOne acc (k, v)) k = some (pyStr v)) ∧
    (∀ (docs : List Document) (md : List (String × String)) (d : Document) (k : String),
      combine_metadata docs = some md → d ∈ docs → k ∈ d.metadata.map Prod.fst →
      dictContains md k = true) := by
  refine ⟨?_, combine_metadata_singleton, ?_, ?_, ?_⟩
  · intro docs cf
    cases h : combine_metadata docs <;> simp [collapse_docs, h]
  · intro acc k v old h
    have hc : dictContains acc k = true := by
      rw [dictContains_eq_isSome, h]
      rfl
    simp only [mergeOne, hc, if_true]
    rw [dictGet_dictAppendStr_self acc k (", " ++ pyStr v) old h, String.append_assoc]
  · intro acc k v h
    have hc : dictContains acc k = false := by
      rw [dictContains_eq_isSome, h]
      rfl
    simp only [mergeOne, hc, Bool.false_eq_true, if_false]
    exact dictGet_dictSet_self acc k (pyStr v)
  · intro docs md d k h hd hk
    cases docs with
    | nil => cases hd
    | cons d0 rest =>
      simp only [combine_metadata, Option.some_inj] at h
      subst h
      rcases List.mem_cons.1 hd with rfl | hd
      · exact dictContains_outer_mono rest _ k (dictContains_strDict d.metadata k hk)
      · exact dictContains_outer_self rest _ d k hd hk

/-- A first document with two metadata keys. -/
def docM1 : Document := ⟨"m1", [("a", PyVal.i 1), ("b", PyVal.s "u")]⟩

/-- A second document sharing key `b` and adding key `c`. -/
def docM2 : Document := ⟨"m2", [("b", PyVal.s "w"), ("c", PyVal.b true)]⟩

/-- C5 witness: concrete single-document passthrough, concrete append and
insert steps, and a concrete no-key-dropped check on a two-document merge. -/
theorem metadata_merge_rule_witness :
    combine_metadata [docM1] = some [("a", "1"), ("b", "u")] ∧
      dictGet (mergeOne [("b", "u")] ("b", PyVal.s "w")) "b" =
        some ("u" ++ ", " ++ pyStr (PyVal.s "w")) ∧
      dictGet (mergeOne [("b", "u")] ("c", PyVal.b true)) "c" =
        some (pyStr (PyVal.b true)) ∧
      dictContains [("a", "1"), ("b", "u, w"), ("c", "True")] "c" = true := by
  refine ⟨?_, ?_, ?_, ?_⟩
  · exact (metadata_merge_rule.2.1 docM1 (by decide)).trans rfl
  · exact metadata_merge_rule.2.2.1 [("b", "u")] "b" (PyVal.s "w") "u" rfl
  · exact metadata_merge_rule.2.2.2.1 [("b", "u")] "c" (PyVal.b true) rfl
  · exact metadata_merge_rule.2.2.2.2 [docM1, docM2]
      [("a", "1"), ("b", "u, w"), ("c", "True")] docM2 "c" rfl (by simp) (by decide)

end ReduceDocs
